import Mathlib

/-!
# Verification of the BIDS sidecar-editing contract of `arcana-bids`

The repository's sources consist of a test suite
(`src/arcana/bids/tests/test_data.py`) and a version stub; the store class
(`arcana.bids.data.Bids`) whose behaviour the tests pin down is not among
the provided files.  Following the specification, the development below
models the one piece of specifiable logic — the JSON sidecar editor
(`apply_edits`) together with the construction of its Edit Rule Set and the
placeholder resolution visible in the test fixtures — and proves the
claimed properties against that model.

Modelling choices, stated once here and repeated at each definition:
* JSON numbers are integers: every number the spec and the fixtures
  exercise is integral (`1.0`, `4`, `2`, …) and the arithmetic the scripts
  perform on them is exact, so the integer records the numeric value the
  query engine computes.  A decimal literal with an integral fractional
  part (`1.0`) denotes that integer; literals outside the integers are
  outside the modelled fragment.  The spec's observation that the engine
  may round-trip integers as floating point (`1` printed as `1.0`)
  concerns serialization, which this model does not cover: `1` and `1.0`
  are the same number here, as they are to the engine's arithmetic.
* The transformation-script language is the jq fragment the spec and the
  fixtures use: a pipe-separated sequence of `path op literal` terms with
  `op` one of `=`, `+=`, `*=`, paths of the form `.a.b` with an optional
  `[]` array-iteration suffix on each component, and literals that are
  numbers or double-quoted strings.
* Patterns are the regular-expression fragment the fixtures use: literal
  characters, `.` (any character) and `*` (zero or more of the previous
  single-character atom), matched with search semantics.
-/

namespace ArcanaBids

/-- A JSON value, the content of a sidecar Metadata Document. -/
inductive JValue where
  | null : JValue
  | bool (b : Bool) : JValue
  | num (n : Int) : JValue
  | str (s : String) : JValue
  | arr (elems : List JValue) : JValue
  | obj (fields : List (String × JValue)) : JValue

namespace JValue

mutual
/-- Boolean equality on JSON values (structure and content). -/
def beq : JValue → JValue → Bool
  | .null, .null => true
  | .bool a, .bool b => a == b
  | .num a, .num b => a == b
  | .str a, .str b => a == b
  | .arr xs, .arr ys => beqItems xs ys
  | .obj xs, .obj ys => beqFields xs ys
  | _, _ => false
/-- Boolean equality on JSON array contents. -/
def beqItems : List JValue → List JValue → Bool
  | [], [] => true
  | x :: xs, y :: ys => beq x y && beqItems xs ys
  | _, _ => false
/-- Boolean equality on JSON object contents. -/
def beqFields : List (String × JValue) → List (String × JValue) → Bool
  | [], [] => true
  | (k, v) :: xs, (l, w) :: ys => k == l && beq v w && beqFields xs ys
  | _, _ => false
end

mutual
theorem beq_iff : ∀ (v w : JValue), beq v w = true ↔ v = w
  | .arr xs, .arr ys => by simp [beq, beqItems_iff xs ys]
  | .obj xs, .obj ys => by simp [beq, beqFields_iff xs ys]
  | .null, .null => by simp [beq]
  | .bool _, .bool _ => by simp [beq]
  | .num _, .num _ => by simp [beq]
  | .str _, .str _ => by simp [beq]
  | .null, .bool _ | .null, .num _ | .null, .str _ | .null, .arr _ | .null, .obj _
  | .bool _, .null | .bool _, .num _ | .bool _, .str _ | .bool _, .arr _ | .bool _, .obj _
  | .num _, .null | .num _, .bool _ | .num _, .str _ | .num _, .arr _ | .num _, .obj _
  | .str _, .null | .str _, .bool _ | .str _, .num _ | .str _, .arr _ | .str _, .obj _
  | .arr _, .null | .arr _, .bool _ | .arr _, .num _ | .arr _, .str _ | .arr _, .obj _
  | .obj _, .null | .obj _, .bool _ | .obj _, .num _ | .obj _, .str _
  | .obj _, .arr _ => by simp [beq]
theorem beqItems_iff : ∀ (xs ys : List JValue), beqItems xs ys = true ↔ xs = ys
  | [], [] => by simp [beqItems]
  | x :: xs, y :: ys => by simp [beqItems, beq_iff x y, beqItems_iff xs ys]
  | [], _ :: _ | _ :: _, [] => by simp [beqItems]
theorem beqFields_iff : ∀ (xs ys : List (String × JValue)),
    beqFields xs ys = true ↔ xs = ys
  | [], [] => by simp [beqFields]
  | (k, v) :: xs, (l, w) :: ys => by
      simp [beqFields, beq_iff v w, beqFields_iff xs ys, and_assoc]
  | [], _ :: _ | _ :: _, [] => by simp [beqFields]
end

instance : DecidableEq JValue := fun v w => decidable_of_iff _ (beq_iff v w)

end JValue

/-- Look a key up in a JSON object's field list (first occurrence). -/
def lookupField : List (String × JValue) → String → Option JValue
  | [], _ => none
  | (k, v) :: fs, key => if k == key then some v else lookupField fs key

/-- Set a key in a JSON object's field list: replace the first occurrence
in place, or append the pair when the key is absent — the convention by
which assignment to a missing path creates it. -/
def setField : List (String × JValue) → String → JValue → List (String × JValue)
  | [], key, v => [(key, v)]
  | (k, w) :: fs, key, v =>
      if k == key then (k, v) :: fs else (k, w) :: setField fs key v

/-- One component of a jq path: a named object field, or `[]`, iteration
over every element of an array. -/
inductive PathComp where
  | field (name : String) : PathComp
  | iter : PathComp
  deriving DecidableEq, Repr

/-- The update operators of the script fragment: `=`, `+=`, `*=`. -/
inductive Op where
  | set : Op
  | add : Op
  | mul : Op
  deriving DecidableEq, Repr

/-- One pipe stage of a script: `path op literal`. -/
structure STerm where
  path : List PathComp
  op : Op
  rhs : JValue
  deriving DecidableEq

/-- Modelled from the spec: the jq update operators' value semantics.
`=` replaces the old value outright; `+` follows jq in treating `null` as
the neutral element (so `+=` on a missing path installs the addend) and
otherwise adds numbers, concatenates strings and appends arrays; `*`
multiplies numbers.  Any other combination is a script evaluation error,
signalled by `none`. -/
def applyOp : Op → JValue → JValue → Option JValue
  | .set, _, rhs => some rhs
  | .add, .null, rhs => some rhs
  | .add, v, .null => some v
  | .add, .num a, .num b => some (.num (a + b))
  | .add, .str a, .str b => some (.str (a ++ b))
  | .add, .arr a, .arr b => some (.arr (a ++ b))
  | .add, _, _ => none
  | .mul, .num a, .num b => some (.num (a * b))
  | .mul, _, _ => none

/-- Apply a fallible function to every element of a list, failing when any
application fails. -/
def mapOpt (f : JValue → Option JValue) : List JValue → Option (List JValue)
  | [] => some []
  | x :: xs =>
      match f x, mapOpt f xs with
      | some y, some ys => some (y :: ys)
      | _, _ => none

/-- Modelled from the spec: jq path update, the engine behind every script
term.  Descending into a named field of an object uses the current value
when the key exists and `null` when it does not, and writes the updated
value back, creating the key if needed; descending into a named field of
`null` creates the enclosing object, which is what makes assignment to an
absent path create it.  `[]` maps the update over every element of an
array.  Descending into any other value is a script evaluation error. -/
def updateAt (f : JValue → Option JValue) : List PathComp → JValue → Option JValue
  | [], v => f v
  | .field key :: ps, v =>
      match v with
      | .obj fields =>
          (updateAt f ps ((lookupField fields key).getD .null)).map
            (fun new => .obj (setField fields key new))
      | .null => (updateAt f ps .null).map (fun new => .obj [(key, new)])
      | _ => none
  | .iter :: ps, v =>
      match v with
      | .arr xs => (mapOpt (updateAt f ps) xs).map .arr
      | _ => none

/-- Evaluate one script term against a document. -/
def evalTerm (t : STerm) (v : JValue) : Option JValue :=
  updateAt (fun old => applyOp t.op old t.rhs) t.path v

/-- Evaluate a pipe-separated script: each stage takes the previous
stage's output document as its input. -/
def evalScript : List STerm → JValue → Option JValue
  | [], v => some v
  | t :: ts, v => (evalTerm t v).bind (evalScript ts)

/-! ## Parsing the script fragment -/

/-- The opening brace character, written by code point. -/
def lbrace : Char := Char.ofNat 123

/-- The closing brace character, written by code point. -/
def rbrace : Char := Char.ofNat 125

/-- The double-quote character, written by code point. -/
def quoteCh : Char := Char.ofNat 34

/-- A character that may appear in a jq path component or a placeholder
name: letters, digits and underscore. -/
def isIdentChar (c : Char) : Bool := c.isAlphanum || c == '_'

/-- Split a character list at the first character failing `p`, returning
the matching front and the remainder. -/
def readWhile (p : Char → Bool) : List Char → List Char × List Char
  | [] => ([], [])
  | c :: s =>
      if p c then
        let (front, rest) := readWhile p s
        (c :: front, rest)
      else ([], c :: s)

/-- Drop leading spaces. -/
def skipWs : List Char → List Char
  | [] => []
  | c :: s => if c == ' ' then skipWs s else c :: s

/-- Split a script at every `|` that stands outside a double-quoted
string literal, the pipe combinator of the script fragment.  `cur` holds
the current segment reversed, `inQ` whether the scan is inside quotes. -/
def splitPipe (inQ : Bool) (cur : List Char) : List Char → List (List Char)
  | [] => [cur.reverse]
  | c :: s =>
      if c == quoteCh then splitPipe (!inQ) (c :: cur) s
      else if c == '|' && !inQ then cur.reverse :: splitPipe false [] s
      else splitPipe inQ (c :: cur) s

/-- Modelled from the spec: resolution of brace-wrapped placeholders in a
script.  `\x7bname\x7d` is replaced by the value bound to `name` in the
environment (in the store, the BIDS-relative path of the named sink's file
for the row at hand); unknown or unterminated placeholders are kept
verbatim.  `mode` is `true` while scanning a placeholder name, which is
held reversed in `acc`. -/
def substPH (env : List (String × String)) : Bool → List Char → List Char → List Char
  | false, _, [] => []
  | false, acc, c :: s =>
      if c == lbrace then substPH env true [] s
      else c :: substPH env false acc s
  | true, acc, [] => lbrace :: acc.reverse
  | true, acc, c :: s =>
      if c == rbrace then
        match env.lookup (String.mk acc.reverse) with
        | some v => v.data ++ substPH env false [] s
        | none => lbrace :: acc.reverse ++ rbrace :: substPH env false [] s
      else substPH env true (c :: acc) s

/-- Parse the path of a script term: `.name`, optionally followed by `[]`,
repeated.  Returns the components and the unconsumed remainder.  The fuel
argument bounds the number of components and is supplied as the input
length, which one component always exceeds in characters consumed. -/
def parseComps : Nat → List Char → Option (List PathComp × List Char)
  | 0, _ => none
  | fuel + 1, s =>
      match s with
      | c :: rest =>
          if c == '.' then
            let (name, rest2) := readWhile isIdentChar rest
            if name.isEmpty then none
            else
              let comp := PathComp.field (String.mk name)
              match rest2 with
              | '[' :: ']' :: rest3 =>
                  match rest3 with
                  | '.' :: _ =>
                      (parseComps fuel rest3).map
                        (fun (ps, r) => (comp :: .iter :: ps, r))
                  | _ => some ([comp, .iter], rest3)
              | '.' :: _ =>
                  (parseComps fuel rest2).map (fun (ps, r) => (comp :: ps, r))
              | _ => some ([comp], rest2)
          else none
      | [] => none

/-- Parse the update operator of a script term. -/
def parseOp0 : List Char → Option (Op × List Char)
  | [] => none
  | c :: s =>
      if c == '=' then some (.set, s)
      else
        match s with
        | c2 :: s2 =>
            if c2 == '=' then
              if c == '+' then some (.add, s2)
              else if c == '*' then some (.mul, s2)
              else none
            else none
        | [] => none

/-- Decimal digits to a natural number. -/
def digitsToNat (ds : List Char) : Nat :=
  ds.foldl (fun n c => n * 10 + (c.toNat - 48)) 0

/-- Parse the literal on the right-hand side of a script term: a
double-quoted string (no escapes, as in the fixtures) or a decimal
number, possibly negative.  A fractional part is accepted when it is all
zeros (`1.0` denotes the integer `1`); other fractional parts lie outside
the modelled integral fragment and fail the parse. -/
def parseRhs : List Char → Option (JValue × List Char)
  | [] => none
  | c :: rest =>
      if c == quoteCh then
        let (content, rest2) := readWhile (fun d => d != quoteCh) rest
        match rest2 with
        | d :: rest3 =>
            if d == quoteCh then some (.str (String.mk content), rest3) else none
        | [] => none
      else
        let neg := c == '-'
        let s1 := if neg then rest else c :: rest
        let (intPart, rest2) := readWhile Char.isDigit s1
        if intPart.isEmpty then none
        else
          let ip : Int := digitsToNat intPart
          let iv : Int := if neg then -ip else ip
          match rest2 with
          | d :: rest3 =>
              if d == '.' then
                let (fracPart, rest4) := readWhile Char.isDigit rest3
                if fracPart.isEmpty || !(fracPart.all (· == '0')) then none
                else some (.num iv, rest4)
              else some (.num iv, rest2)
          | [] => some (.num iv, [])

/-- Parse one pipe stage: `path op literal`, allowing surrounding
spaces. -/
def parseTerm (s : List Char) : Option STerm :=
  let s1 := skipWs s
  (parseComps (s1.length + 1) s1).bind fun (path, rest) =>
    (parseOp0 (skipWs rest)).bind fun (op, rest2) =>
      (parseRhs (skipWs rest2)).bind fun (v, rest3) =>
        if (skipWs rest3).isEmpty then some ⟨path, op, v⟩ else none

/-- Collect a list of optional results, failing when any entry fails. -/
def optList {α : Type} : List (Option α) → Option (List α)
  | [] => some []
  | some x :: xs => (optList xs).map (x :: ·)
  | none :: _ => none

/-- Modelled from the spec: parse a whole transformation script — pipe
stages separated by `|` — into its term sequence.  `none` is a script
parse failure, reported as `ScriptError` at evaluation time. -/
def parseScript (s : List Char) : Option (List STerm) :=
  optList ((splitPipe false [] s).map parseTerm)

/-! ## The pattern language -/

/-- A single-character pattern atom: a literal character or `.`. -/
inductive RAtom where
  | lit (c : Char) : RAtom
  | dot : RAtom
  deriving DecidableEq, Repr

/-- A pattern token: an atom, or an atom under `*` (zero or more). -/
inductive RTok where
  | atom (a : RAtom) : RTok
  | star (a : RAtom) : RTok
  deriving DecidableEq, Repr

/-- Modelled from the spec: compile a pattern string to tokens.  `.` is the
any-character atom, `*` repeats the preceding atom and is a `PatternError`
when nothing repeatable precedes it (start of pattern, or a second `*`),
every other character is a literal.  `acc` holds the tokens reversed. -/
def patLoop : List RTok → List Char → Option (List RTok)
  | acc, [] => some acc.reverse
  | acc, c :: s =>
      if c == '*' then
        match acc with
        | .atom a :: acc2 => patLoop (.star a :: acc2) s
        | _ => none
      else if c == '.' then patLoop (.atom .dot :: acc) s
      else patLoop (.atom (.lit c) :: acc) s

/-- Compile a pattern string, `none` signalling an invalid pattern. -/
def parsePattern (s : List Char) : Option (List RTok) := patLoop [] s

/-- Does a single-character atom match a character? -/
def matchAtom : RAtom → Char → Bool
  | .dot, _ => true
  | .lit c, x => c == x

/-- Do the tokens match some front segment of the input?  A starred atom
consumes any number of matching characters, expressed as a search over
every split of the remaining input. -/
def matchFront : List RTok → List Char → Bool
  | [], _ => true
  | .atom a :: ts, s =>
      match s with
      | [] => false
      | c :: s2 => matchAtom a c && matchFront ts s2
  | .star a :: ts, s =>
      (List.range (s.length + 1)).any fun k =>
        ((s.take k).all (matchAtom a)) && matchFront ts (s.drop k)

/-- Search semantics, as the spec requires: the tokens match starting at
any position of the input. -/
def rsearch (ts : List RTok) (s : List Char) : Bool :=
  (List.range (s.length + 1)).any fun k => matchFront ts (s.drop k)

/-! ## Edit Rule Sets and `apply_edits` -/

/-- The error raised when a Path-Rule's pattern is not a valid regular
expression, carrying the offending pattern. -/
inductive PatternError where
  | invalidPattern (pattern : String) : PatternError
  deriving DecidableEq, Repr

/-- The error raised when a transformation script fails to parse or errors
during evaluation against a document, carrying the script. -/
inductive ScriptError where
  | badScript (script : String) : ScriptError
  deriving DecidableEq, Repr

/-- One Path-Rule of an Edit Rule Set: a compiled pattern and the raw
script, whose placeholders are resolved and which is parsed per item at
application time. -/
structure JsonEdit where
  pattern : List RTok
  script : String
  deriving DecidableEq

/-- Modelled from the spec: construction of an Edit Rule Set from the
`(pattern, script)` pairs handed to the store's `json_edits` argument.
Every pattern is compiled here, so an invalid one fails the construction
with `PatternError` before any item is processed; scripts are kept raw. -/
def mkJsonEdits : List (String × String) → Except PatternError (List JsonEdit)
  | [] => .ok []
  | (pat, scr) :: rest =>
      match parsePattern pat.data with
      | none => .error (.invalidPattern pat)
      | some toks => (mkJsonEdits rest).map (fun rs => ⟨toks, scr⟩ :: rs)

/-- Resolve placeholders against the environment and parse and evaluate
one rule's script against a document; both failure modes of the rule are
a `ScriptError` carrying the script. -/
def applyRule (env : List (String × String)) (r : JsonEdit) (doc : JValue) :
    Except ScriptError JValue :=
  match parseScript (substPH env false [] r.script.data) with
  | none => .error (.badScript r.script)
  | some terms =>
      match evalScript terms doc with
      | none => .error (.badScript r.script)
      | some doc2 => .ok doc2

/-- Modelled from the spec: `apply_edits(item_path, document, rules)`.
Each rule whose pattern matches the item's dataset-relative path (search
semantics) transforms the document, in declaration order, each later rule
seeing the previous rule's output; non-matching rules are skipped.  `env`
is the row's placeholder environment. -/
def applyEdits (env : List (String × String)) :
    List JsonEdit → String → JValue → Except ScriptError JValue
  | [], _, doc => .ok doc
  | r :: rs, path, doc =>
      if rsearch r.pattern path.data then
        match applyRule env r doc with
        | .error e => .error e
        | .ok doc2 => applyEdits env rs path doc2
      else applyEdits env rs path doc

/-! ## The store's writer, as far as the fixtures pin it down -/

/-- Split a character list at every occurrence of a separator character;
`cur` holds the current segment reversed. -/
def splitChar (sep : Char) (cur : List Char) : List Char → List (List Char)
  | [] => [cur.reverse]
  | c :: s =>
      if c == sep then cur.reverse :: splitChar sep [] s
      else splitChar sep (c :: cur) s

/-- Render one `key=value` entity of a sink path as the `_key-value`
fragment of a BIDS file name. -/
def renderEntity (comp : List Char) : List Char :=
  match splitChar '=' [] comp with
  | [k, v] => '_' :: (k ++ '-' :: v)
  | _ => '_' :: comp

/-- Modelled from the spec: the dataset-relative file path the store gives
the data file of a sink for a row, as the fixtures pin it down — directory
from the sink path's first component, then `sub-` and `ses-` labels from
the row, then each `key=value` entity as `_key-value`, then the suffix,
then the NIfTI extension (`func/bold/task=rest` for the row `("1", "1")`
becomes `func/sub-1_ses-1_task-rest_bold.nii`). -/
def bidsRelPath (sinkPath : String) (sub ses : String) : String :=
  match splitChar '/' [] sinkPath.data with
  | dir :: sfx :: entities =>
      String.mk
        (dir ++ '/' :: ("sub-".data ++ sub.data ++ "_ses-".data ++ ses.data
          ++ (entities.map renderEntity).flatten ++ '_' :: sfx ++ ".nii".data))
  | _ => sinkPath

/-- The placeholder environment of a row: each sink's name bound to the
BIDS-relative path of that sink's data file for the row. -/
def sinkEnv (sinks : List (String × String)) (sub ses : String) :
    List (String × String) :=
  sinks.map (fun p => (p.1, bidsRelPath p.2 sub ses))

/-- The task label of a sink path, when one of its entities is
`task=label`. -/
def taskOf (sinkPath : String) : Option String :=
  match splitChar '/' [] sinkPath.data with
  | _ :: _ :: entities =>
      (entities.filterMap (fun comp =>
        match splitChar '=' [] comp with
        | [k, v] => if k == "task".data then some (String.mk v) else none
        | _ => none)).head?
  | _ => none

/-- Modelled from the spec and the fixtures: the sidecar document the
store saves for an item.  The writer first adds the metadata it derives
from the item's path — a `task=label` entity becomes a `TaskName` entry,
which is how the `bold` fixture's sidecar gains `TaskName` though no rule
matches it — and then runs `apply_edits` over the result. -/
def savedSideCar (env : List (String × String)) (rules : List JsonEdit)
    (sinkPath : String) (doc : JValue) : Except ScriptError JValue :=
  let doc2 :=
    match taskOf sinkPath, doc with
    | some t, .obj fields => .obj (setField fields "TaskName" (.str t))
    | _, _ => doc
  applyEdits env rules sinkPath doc2

/-- One item presented for ingestion: its dataset-relative path and its
original sidecar document. -/
structure Item where
  path : String
  doc : JValue
  deriving DecidableEq

/-- Ingest one item: the sidecar the store saves for it, or the
`ScriptError` aborting the item. -/
def processItem (env : List (String × String)) (rules : List JsonEdit)
    (it : Item) : Except ScriptError JValue :=
  savedSideCar env rules it.path it.doc

/-- Modelled from the spec's concurrency/resource model: ingestion of a
batch of items is an independent per-item read-transform-write, with no
cross-item state. -/
def ingestItems (env : List (String × String)) (rules : List JsonEdit)
    (items : List Item) : List (Except ScriptError JValue) :=
  items.map (processItem env rules)

/-! ## The fixtures of `test_data.py`, as values of the model -/

/-- The compiled pattern `anat/T.*w` of the `basic` and `multiple`
fixtures. -/
def tPat : List RTok := (parsePattern "anat/T.*w".data).getD []

/-- The compiled pattern `fmap/.*` of the `fmap` fixture. -/
def fPat : List RTok := (parsePattern "fmap/.*".data).getD []

/-- The single-rule Edit Rule Set of the `basic` fixture. -/
def basicRules : List JsonEdit := [⟨tPat, ".a.b += 4"⟩]

/-- The original sidecar of the `basic` fixture. -/
def basicDoc : JValue := .obj [("a", .obj [("b", .num 1)])]

/-- The edited sidecar the `basic` fixture expects. -/
def basicEdited : JValue := .obj [("a", .obj [("b", .num 5)])]

/-- The single-rule Edit Rule Set of the `multiple` fixture, with the
piped script. -/
def multipleRules : List JsonEdit := [⟨tPat, ".a.b += 4 | .a.c[] *= 2"⟩]

/-- The original sidecar of the `multiple` fixture. -/
def multipleDoc : JValue :=
  .obj [("a", .obj [("b", .num 1), ("c", .arr [.num 2, .num 4, .num 6])])]

/-- The edited sidecar the `multiple` fixture expects. -/
def multipleEdited : JValue :=
  .obj [("a", .obj [("b", .num 5), ("c", .arr [.num 4, .num 8, .num 12])])]

/-- The sinks of the `fmap` fixture: name and sink path, as added by
`add_sink`. -/
def fmapSinks : List (String × String) :=
  [("bold", "func/bold/task=rest"), ("fmap_mag1", "fmap/magnitude1"),
   ("fmap_mag2", "fmap/magnitude2"), ("fmap_phasediff", "fmap/phasediff")]

/-- The placeholder environment of the `fmap` fixture's single row
`("1", "1")`. -/
def fmapEnv : List (String × String) := sinkEnv fmapSinks "1" "1"

/-- The single-rule Edit Rule Set of the `fmap` fixture, whose script
carries the `\x7bbold\x7d` placeholder. -/
def fmapRules : List JsonEdit := [⟨fPat, ".IntendedFor = \"{bold}\""⟩]

/-- A placeholder-free assignment rule set on the `fmap/.*` pattern, the
spec's example of assignment creating a missing key. -/
def assignRules : List JsonEdit := [⟨fPat, ".IntendedFor = \"x\""⟩]

/-- A rule set whose script does not parse, for the script-error claims. -/
def parseFailRules : List JsonEdit := [⟨tPat, "???"⟩]

/-! ## Helper lemmas -/

theorem lookupField_setField (fs : List (String × JValue)) (key : String)
    (v : JValue) : lookupField (setField fs key v) key = some v := by
  induction fs with
  | nil => simp [setField, lookupField]
  | cons p fs ih =>
      by_cases h : p.1 == key
      · cases p; simp_all [setField, lookupField]
      · cases p; simp_all [setField, lookupField]

/-! ## The claims -/

/-- C1: for every item whose dataset-relative path matches the pattern
`anat/T.*w` (search semantics), the single-rule Edit Rule Set with script
`.a.b += 4` — whose construction from the raw pair succeeds — maps the
document `{"a": {"b": 1.0}}` to exactly `{"a": {"b": 5.0}}`. -/
theorem c1_basic_edit (path : String)
    (h : rsearch tPat path.data = true) :
    mkJsonEdits [("anat/T.*w", ".a.b += 4")] = .ok basicRules
    ∧ applyEdits [] basicRules path basicDoc = .ok basicEdited := by
  refine ⟨rfl, ?_⟩
  simp only [basicRules, applyEdits, h, if_true]
  rfl

theorem c1_basic_edit_witness :
    rsearch tPat "anat/T1w".data = true
    ∧ (mkJsonEdits [("anat/T.*w", ".a.b += 4")] = .ok basicRules
        ∧ applyEdits [] basicRules "anat/T1w" basicDoc = .ok basicEdited) :=
  ⟨by decide, c1_basic_edit "anat/T1w" (by decide)⟩

/-- C2: for every item whose dataset-relative path matches `anat/T.*w`,
the single-rule Edit Rule Set with the piped script
`.a.b += 4 | .a.c[] *= 2` maps `{"a": {"b": 1.0, "c": [2, 4, 6]}}` to
exactly `{"a": {"b": 5.0, "c": [4, 8, 12]}}`: the second pipe stage sees
the first stage's output and maps over every array element. -/
theorem c2_piped_edit (path : String)
    (h : rsearch tPat path.data = true) :
    mkJsonEdits [("anat/T.*w", ".a.b += 4 | .a.c[] *= 2")] = .ok multipleRules
    ∧ applyEdits [] multipleRules path multipleDoc = .ok multipleEdited := by
  refine ⟨rfl, ?_⟩
  simp only [multipleRules, applyEdits, h, if_true]
  rfl

theorem c2_piped_edit_witness :
    rsearch tPat "anat/T1w".data = true
    ∧ (mkJsonEdits [("anat/T.*w", ".a.b += 4 | .a.c[] *= 2")] = .ok multipleRules
        ∧ applyEdits [] multipleRules "anat/T1w" multipleDoc = .ok multipleEdited) :=
  ⟨by decide, c2_piped_edit "anat/T1w" (by decide)⟩

/-- C3: for every document object in which the key targeted by the
assignment script `.IntendedFor = "x"` is absent — the empty object
included — applying the assignment rule to an item the pattern matches
does not fail, and the result binds `IntendedFor` to the assigned
value: assignment creates the missing key. -/
theorem c3_assign_creates (fields : List (String × JValue))
    (_h : lookupField fields "IntendedFor" = none) :
    ∃ out, applyEdits [] assignRules "fmap/magnitude1" (.obj fields)
        = .ok (.obj out)
      ∧ lookupField out "IntendedFor" = some (.str "x") :=
  ⟨setField fields "IntendedFor" (.str "x"), rfl,
    lookupField_setField fields "IntendedFor" (.str "x")⟩

theorem c3_assign_creates_witness :
    lookupField [] "IntendedFor" = none
    ∧ ∃ out, applyEdits [] assignRules "fmap/magnitude1" (.obj [])
          = .ok (.obj out)
        ∧ lookupField out "IntendedFor" = some (.str "x") :=
  ⟨rfl, c3_assign_creates [] rfl⟩

/-- C4, counterexample: the claim that an item matched by no rule keeps
its saved Metadata Document equal to the original fails on the `bold`
item of the `fmap` fixture.  No rule of the fixture's Edit Rule Set
matches the path `func/bold/task=rest`, yet the fixture requires the
saved sidecar of the originally empty document to be
`{"TaskName": "rest"}`: the writer itself adds path-derived metadata
before the rules run. -/
theorem c4_saved_unchanged_cex :
    fmapRules.all
        (fun r => !rsearch r.pattern "func/bold/task=rest".data) = true
    ∧ savedSideCar fmapEnv fmapRules "func/bold/task=rest" (.obj [])
        = .ok (.obj [("TaskName", .str "rest")])
    ∧ JValue.obj [("TaskName", .str "rest")] ≠ .obj [] :=
  ⟨rfl, rfl, by decide⟩

/-- C4, amended: applying an Edit Rule Set none of whose patterns matches
the item's dataset-relative path is the identity transform on the
document — `apply_edits` returns it unchanged and without error.  (The
saved file may still differ from the original sidecar by the metadata the
writer derives from the item's path, such as `TaskName`.) -/
theorem c4_no_match_identity (env : List (String × String))
    (rules : List JsonEdit) (path : String) (doc : JValue)
    (h : ∀ r ∈ rules, rsearch r.pattern path.data = false) :
    applyEdits env rules path doc = .ok doc := by
  induction rules generalizing doc with
  | nil => rfl
  | cons r rs ih =>
      have hr : rsearch r.pattern path.data = false := h r (by simp)
      simp only [applyEdits, hr, if_false, Bool.false_eq_true]
      exact ih doc (fun r' hr' => h r' (by simp [hr']))

theorem c4_no_match_identity_witness :
    (∀ r ∈ basicRules, rsearch r.pattern "dwi/dwi".data = false)
    ∧ applyEdits [] basicRules "dwi/dwi" basicDoc = .ok basicDoc :=
  ⟨by decide, c4_no_match_identity [] basicRules "dwi/dwi" basicDoc (by decide)⟩

/-- C5: constructing an Edit Rule Set in which some Path-Rule's pattern is
not a valid regular expression fails with a `PatternError` — the
construction itself returns the error, before any item's document is
touched. -/
theorem c5_bad_pattern (edits : List (String × String))
    (h : ∃ e ∈ edits, parsePattern e.1.data = none) :
    ∃ err : PatternError, mkJsonEdits edits = .error err := by
  induction edits with
  | nil => simp at h
  | cons p rest ih =>
      match hp : parsePattern p.1.data with
      | none => exact ⟨.invalidPattern p.1, by simp [mkJsonEdits, hp]⟩
      | some toks =>
          obtain ⟨e, he, hne⟩ := h
          rcases List.mem_cons.mp he with rfl | hmem
          · exact absurd hne (by simp [hp])
          · obtain ⟨err, herr⟩ := ih ⟨e, hmem, hne⟩
            refine ⟨err, ?_⟩
            simp [mkJsonEdits, hp, herr, Except.map]

theorem c5_bad_pattern_witness :
    (∃ e ∈ [("*", ".a.b += 4")], parsePattern e.1.data = none)
    ∧ ∃ err : PatternError, mkJsonEdits [("*", ".a.b += 4")] = .error err :=
  ⟨⟨("*", ".a.b += 4"), by simp, rfl⟩,
    c5_bad_pattern _ ⟨("*", ".a.b += 4"), by simp, rfl⟩⟩

/-- C6: `apply_edits` applies the matching rules in declaration order,
each later rule seeing the previous output: running a rule list split at
any point equals running the front and feeding its result to the back.
On concrete rules this composition is visible and order-sensitive:
`+= 4` then `*= 2` on `b = 1` gives `10`, the last rule alone gives `2`
(so the composition is not the last rule's effect), and the swapped order
gives `6`. -/
theorem c6_declaration_order :
    (∀ (env : List (String × String)) (rules1 rules2 : List JsonEdit)
        (path : String) (doc : JValue),
        applyEdits env (rules1 ++ rules2) path doc
          = (applyEdits env rules1 path doc).bind (applyEdits env rules2 path))
    ∧ applyEdits [] [⟨tPat, ".a.b += 4"⟩, ⟨tPat, ".a.b *= 2"⟩] "anat/T1w" basicDoc
        = .ok (.obj [("a", .obj [("b", .num 10)])])
    ∧ applyEdits [] [⟨tPat, ".a.b *= 2"⟩] "anat/T1w" basicDoc
        = .ok (.obj [("a", .obj [("b", .num 2)])])
    ∧ applyEdits [] [⟨tPat, ".a.b *= 2"⟩, ⟨tPat, ".a.b += 4"⟩] "anat/T1w" basicDoc
        = .ok (.obj [("a", .obj [("b", .num 6)])])
    ∧ JValue.obj [("a", .obj [("b", .num 10)])]
        ≠ .obj [("a", .obj [("b", .num 2)])] := by
  refine ⟨?_, rfl, rfl, rfl, by decide⟩
  intro env rules1 rules2 path doc
  induction rules1 generalizing doc with
  | nil => rfl
  | cons r rs ih =>
      by_cases hm : rsearch r.pattern path.data
      · simp only [List.cons_append, applyEdits, hm, if_true]
        match applyRule env r doc with
        | .error e => rfl
        | .ok doc2 => exact ih doc2
      · simp only [List.cons_append, applyEdits, hm, if_false]
        exact ih doc

/-- C7: re-applying an Edit Rule Set equals one application only for
idempotent scripts, and the system does not enforce idempotence.  For the
`+=` script the second application is accepted (no error — nothing
enforces idempotence) and doubles the increment: `b` goes `1 → 5 → 9`,
and the twice-applied document differs from the once-applied one.  For
the plain-assignment script the second application reproduces the first:
that script is idempotent. -/
theorem c7_idempotence_not_enforced :
    applyEdits [] basicRules "anat/T1w" basicDoc = .ok basicEdited
    ∧ applyEdits [] basicRules "anat/T1w" basicEdited
        = .ok (.obj [("a", .obj [("b", .num 9)])])
    ∧ JValue.obj [("a", .obj [("b", .num 9)])] ≠ basicEdited
    ∧ applyEdits [] assignRules "fmap/magnitude1" (.obj [])
        = .ok (.obj [("IntendedFor", .str "x")])
    ∧ applyEdits [] assignRules "fmap/magnitude1"
          (.obj [("IntendedFor", .str "x")])
        = .ok (.obj [("IntendedFor", .str "x")]) :=
  ⟨rfl, rfl, by decide, rfl, rfl⟩

/-- C8: a script that fails to parse, or that errors during evaluation
against a specific item's document, yields a `ScriptError` for that item
at ingestion time — the item's result is the error, not a document — and
ingestion is per-item: the batch result around any item is exactly the
results of the other items, unaffected by it.  `???` does not parse, and
`.a.b += 4` errors on `{"a": 5}`, whose field `a` cannot be descended
into. -/
theorem c8_script_error_per_item :
    (∀ (env : List (String × String)) (rules : List JsonEdit)
        (pre post : List Item) (it : Item),
        ingestItems env rules (pre ++ it :: post)
          = ingestItems env rules pre
              ++ processItem env rules it :: ingestItems env rules post)
    ∧ applyEdits [] parseFailRules "anat/T1w" (.obj [])
        = .error (.badScript "???")
    ∧ applyEdits [] basicRules "anat/T1w" (.obj [("a", .num 5)])
        = .error (.badScript ".a.b += 4") := by
  refine ⟨?_, rfl, rfl⟩
  intro env rules pre post it
  simp [ingestItems]

/-- C9: the brace-wrapped placeholder `\x7bbold\x7d` in the `fmap`
fixture's script is replaced, before the result is written, by the BIDS
dataset-relative file path of the `bold` sink's data file for the row
`("1", "1")` — `func/sub-1_ses-1_task-rest_bold.nii`, derived from the
sink path `func/bold/task=rest` — so the matched item's saved sidecar
binds `IntendedFor` to that path. -/
theorem c9_placeholder_resolution :
    sinkEnv fmapSinks "1" "1"
        = [("bold", "func/sub-1_ses-1_task-rest_bold.nii"),
           ("fmap_mag1", "fmap/sub-1_ses-1_magnitude1.nii"),
           ("fmap_mag2", "fmap/sub-1_ses-1_magnitude2.nii"),
           ("fmap_phasediff", "fmap/sub-1_ses-1_phasediff.nii")]
    ∧ savedSideCar fmapEnv fmapRules "fmap/magnitude1" (.obj [])
        = .ok (.obj [("IntendedFor",
            .str "func/sub-1_ses-1_task-rest_bold.nii")]) :=
  ⟨rfl, rfl⟩

end ArcanaBids
